import Mathlib

/-!
Verification of the bulk v2 pipeline of `simple_salesforce`:
shallow embedding of `util.py` (`split_csv`, `exception_handler`,
`call_salesforce`, `json_list_to_file`) and `bulk_v2.py`
(`SFBulk_v2Type._get_job_results`, `_bulk_operation` and the four
public operations), with theorems about the chunker, the result
merger, the polling scheduler and the error propagation.
-/

namespace SimpleSalesforce

/-- A CSV row, as the list of its string fields. -/
abbrev Row := List String

/-- Accounted byte cost of one data row in `split_csv`
(`n += sum([len(item)+3 for item in line]) + 1`, util.py line 121). -/
def rowCost (line : Row) : Nat :=
  (line.map (fun item => item.length + 3)).sum + 1

/-- Total accounted cost of a list of data rows (the value of `n` after the
rows have been written into the current chunk). -/
def dataCost (rows : List Row) : Nat :=
  (rows.map rowCost).sum

/-- The loops of `split_csv` (util.py lines 110-130), one consumed row per
step.  State: `acc` are the data rows already written into the current
chunk (the inner loop's `output` buffer, minus the header) and `n` the
accumulated cost.  Each consumed row is written and costed, then the
`if n >= max_bytes` check runs: on a flush the chunk is yielded and, if the
stream is already exhausted, the trailing `yield output.getvalue()` at line
130 emits the very same buffer a second time; otherwise the outer
`for line in data` draws the next seed row into a fresh buffer.  If the
stream runs out without a flush, the trailing yield emits the current
buffer once. -/
def splitRun (maxBytes : Nat) (header : Row) (acc : List Row) (n : Nat) :
    List Row → List (List Row)
  | [] => [header :: acc]
  | row :: rest =>
    let acc' := acc ++ [row]
    let n' := n + rowCost row
    if maxBytes ≤ n' then
      (header :: acc') ::
        (if rest.isEmpty then [header :: acc']
         else splitRun maxBytes header [] 0 rest)
    else splitRun maxBytes header acc' n' rest

/-- Ways `split_csv` raises instead of yielding chunks: a fully empty
source makes `header = next(data)` raise `StopIteration` (surfaced as a
`RuntimeError` when the generator is driven, PEP 479), and a source with a
header but no data rows reaches util.py line 128 with `start`, `output`
never assigned (`UnboundLocalError`). -/
inductive SplitError
  | emptySource
  | unboundLocal
deriving DecidableEq

/-- `split_csv` from util.py (lines 100-130), at row granularity: chunks are
row lists (the written header followed by the written data rows) rather
than rendered CSV text, and `max_bytes = int(split_size * 1024 * 1024)`
(line 108) is taken directly as a `Nat` parameter. -/
def split_csv (maxBytes : Nat) : List Row → Except SplitError (List (List Row))
  | [] => .error .emptySource
  | [_] => .error .unboundLocal
  | header :: seed :: rows => .ok (splitRun maxBytes header [] 0 (seed :: rows))

/-- Sanity: two cheap rows under a large limit come back as one chunk. -/
example :
    split_csv 1000 [["a", "b"], ["c", "d"], ["e", "f"]] =
      .ok [[["a", "b"], ["c", "d"], ["e", "f"]]] := by rfl

/-- Sanity: the limit flushing mid-stream starts a fresh header-seeded
chunk with the next row. -/
example :
    split_csv 10 [["h"], ["aaaa"], ["bbbb"], ["c"]] =
      .ok [[["h"], ["aaaa"], ["bbbb"]], [["h"], ["c"]]] := by rfl

theorem dataCost_append (l₁ l₂ : List Row) :
    dataCost (l₁ ++ l₂) = dataCost l₁ + dataCost l₂ := by
  simp [dataCost]

theorem dataCost_dropLast_le (l : List Row) :
    dataCost l.dropLast ≤ dataCost l := by
  rcases eq_or_ne l [] with h | h
  · simp [h]
  · conv_rhs => rw [← List.dropLast_append_getLast h]
    rw [dataCost_append]
    exact Nat.le_add_right _ _

/-- Every chunk that `splitRun` produces has the cost of its data rows,
excluding the last one, strictly below the limit: the flush check fires as
soon as the accumulated cost reaches the limit, so only the final row of a
chunk can push it past `maxBytes`. -/
theorem splitRun_prefix_lt (maxBytes : Nat) (header : Row) :
    ∀ (rows acc : List Row) (n : Nat), n < maxBytes → n = dataCost acc →
      ∀ chunk ∈ splitRun maxBytes header acc n rows,
        dataCost ((chunk.drop 1).dropLast) < maxBytes := by
  intro rows
  induction rows with
  | nil =>
    intro acc n hn hsync chunk hchunk
    simp only [splitRun, List.mem_singleton] at hchunk
    subst hchunk
    simp only [List.drop_one, List.tail_cons]
    exact Nat.lt_of_le_of_lt (dataCost_dropLast_le acc) (hsync ▸ hn)
  | cons row rest ih =>
    intro acc n hn hsync chunk hchunk
    simp only [splitRun] at hchunk
    split at hchunk
    · rcases List.mem_cons.mp hchunk with hc | hc
      · subst hc
        simp only [List.drop_one, List.tail_cons, List.dropLast_concat]
        exact hsync ▸ hn
      · split at hc
        · simp only [List.mem_singleton] at hc
          subst hc
          simp only [List.drop_one, List.tail_cons, List.dropLast_concat]
          exact hsync ▸ hn
        · exact ih [] 0 (Nat.lt_of_le_of_lt (Nat.zero_le n) hn) (by simp [dataCost])
            chunk hc
    · exact ih (acc ++ [row]) (n + rowCost row) (Nat.lt_of_not_le (by assumption))
        (by rw [dataCost_append, hsync]; simp [dataCost]) chunk hchunk

/-- C1: the concatenation of all chunks' data rows does NOT always equal the
original data-row sequence.  When the final data row makes the accumulated
cost reach `max_bytes`, the chunk is yielded by the inner loop's
`yield output.getvalue()` (util.py line 126) and the trailing
`yield output.getvalue()` at line 130 then emits the same buffer a second
time, duplicating every row of the last chunk.  Here the single data row
`["bb"]` (cost 6 ≥ max_bytes 1) comes back twice. -/
theorem split_csv_duplicates_final_chunk :
    split_csv 1 [["a"], ["bb"]] = .ok [[["a"], ["bb"]], [["a"], ["bb"]]] ∧
      List.flatten ([[["a"], ["bb"]], [["a"], ["bb"]]].map (List.drop 1)) ≠
        [["bb"]] := by
  exact ⟨by rfl, by decide⟩

/-- C2 counterexample: a chunk can exceed `max_bytes` under the chunker's
own accounting even though no single row alone exceeds it.  With
`max_bytes = 10` and two rows of cost 8 each, the first (and only) chunk
accumulates cost 16 before the `n >= max_bytes` check fires. -/
theorem split_csv_chunk_exceeds_limit :
    split_csv 10 [["h"], ["aaaa"], ["aaaa"]] =
      .ok [[["h"], ["aaaa"], ["aaaa"]], [["h"], ["aaaa"], ["aaaa"]]] ∧
      (∀ row ∈ [["aaaa"], ["aaaa"]], rowCost row ≤ 10) ∧
      10 < dataCost [["aaaa"], ["aaaa"]] := by
  refine ⟨by rfl, by decide, by decide⟩

/-- C2 amended: the chunker closes the current chunk as soon as the
accumulated accounted size reaches `max_bytes`, so for every produced chunk
the accounted cost of its data rows excluding the final one is strictly
below `max_bytes`; a chunk can overshoot `max_bytes` only by (part of) the
cost of its final row. -/
theorem split_csv_closes_at_limit (maxBytes : Nat) (data : List Row)
    (out : List (List Row)) (hpos : 0 < maxBytes)
    (h : split_csv maxBytes data = .ok out) :
    ∀ chunk ∈ out, dataCost ((chunk.drop 1).dropLast) < maxBytes := by
  match data with
  | [] => exact absurd h (by simp [split_csv])
  | [_] => exact absurd h (by simp [split_csv])
  | header :: seed :: rows =>
    simp only [split_csv, Except.ok.injEq] at h
    subst h
    exact splitRun_prefix_lt maxBytes header (seed :: rows) [] 0 hpos
      (by simp [dataCost])

theorem split_csv_closes_at_limit_witness :
    dataCost ((([["h"], ["aaaa"], ["aaaa"]] : List Row).drop 1).dropLast) <
      10 :=
  split_csv_closes_at_limit 10 [["h"], ["aaaa"], ["aaaa"]]
    [[["h"], ["aaaa"], ["aaaa"]], [["h"], ["aaaa"], ["aaaa"]]]
    (by decide) (by rfl) [["h"], ["aaaa"], ["aaaa"]] (by decide)

/-- C3: a source with a header row and zero data rows does not yield a
header-only chunk; instead the chunker crashes.  The outer `for line in
data` never runs, so when control reaches util.py line 128 the local
variables `start` and `output` were never assigned and the generator raises
`UnboundLocalError` on its first `next()`. -/
theorem split_csv_zero_rows_crashes :
    ∀ maxBytes : Nat, split_csv maxBytes [["h"]] = .error .unboundLocal := by
  intro maxBytes
  rfl

/-! ## Result merger (`_get_job_results`, bulk_v2.py lines 146-176)

Result bodies are modelled as `List Char` (the decoded UTF-8 text).  The
code touches the bodies only through `str.splitlines()`, string
concatenation and `str.join`, which are embedded below. -/

/-- Python `str.splitlines` restricted to `'\n'` line breaks (the bodies
are LF-terminated CSV, `lineEnding: "LF"`): an empty string has no lines
and a trailing newline does not open an empty final line. -/
def pySplitlines : List Char → List (List Char)
  | [] => []
  | c :: cs =>
    if c = '\n' then [] :: pySplitlines cs
    else
      match pySplitlines cs with
      | [] => [[c]]
      | l :: ls => (c :: l) :: ls

/-- Python `sep.join(parts)`. -/
def pyJoin (sep : List Char) : List (List Char) → List Char
  | [] => []
  | [l] => l
  | l :: ls => l ++ sep ++ pyJoin sep ls

/-- The separator `empty_columns = '\n"","",'` of bulk_v2.py line 173. -/
def emptyColumns : List Char := "\n\"\",\"\",".data

/-- `emptyColumns` without its leading newline: the text `"","",` that ends
up at the front of every unprocessed row in the merged body. -/
def ecPrefix : List Char := "\"\",\"\",".data

theorem emptyColumns_eq : emptyColumns = '\n' :: ecPrefix := rfl

/-- The way `_get_job_results` can raise after its three fetches: with a
fully empty success body `result_success.splitlines()[0]` (bulk_v2.py line
164) raises `IndexError`. -/
inductive MergeError
  | indexError
deriving DecidableEq

/-- The merge step of `_get_job_results` (bulk_v2.py lines 164-176), taking
the three decoded partition bodies: start from the success body's first
line, append the success data lines and the failed data lines each behind a
newline, then append the unprocessed data lines joined by `empty_columns`
(which plants `"","",` in front of each of them). -/
def get_job_results (success failed unprocessed : List Char) :
    Except MergeError (List Char) :=
  match pySplitlines success with
  | [] => .error .indexError
  | first :: _ =>
    let c₁ :=
      if 1 < (pySplitlines success).length then
        first ++ '\n' :: pyJoin ['\n'] ((pySplitlines success).drop 1)
      else first
    let c₂ :=
      if 1 < (pySplitlines failed).length then
        c₁ ++ '\n' :: pyJoin ['\n'] ((pySplitlines failed).drop 1)
      else c₁
    let c₃ :=
      if 1 < (pySplitlines unprocessed).length then
        c₂ ++ emptyColumns ++ pyJoin emptyColumns ((pySplitlines unprocessed).drop 1)
      else c₂
    .ok c₃

/-- Sanity: the merged body of three two-line partitions. -/
example :
    get_job_results "h\na".data "h\nb".data "g\nc".data =
      .ok "h\na\nb\n\"\",\"\",c".data := by rfl

theorem pySplitlines_single (l : List Char) (hn : '\n' ∉ l) (hne : l ≠ []) :
    pySplitlines l = [l] := by
  induction l with
  | nil => exact absurd rfl hne
  | cons c cs ih =>
    have hc : c ≠ '\n' := fun h => hn (by simp [h])
    by_cases hcs : cs = []
    · subst hcs
      simp [pySplitlines, hc]
    · have hrec := ih (fun h => hn (List.mem_cons_of_mem c h)) hcs
      simp [pySplitlines, hc, hrec]

theorem pySplitlines_append (l rest : List Char) (hn : '\n' ∉ l) :
    pySplitlines (l ++ '\n' :: rest) = l :: pySplitlines rest := by
  induction l with
  | nil => simp [pySplitlines]
  | cons c cs ih =>
    have hc : c ≠ '\n' := fun h => hn (by simp [h])
    have hrec := ih (fun h => hn (List.mem_cons_of_mem c h))
    simp [pySplitlines, hc, hrec]

/-- Joining well-formed lines with `'\n'` and splitting again is the
identity. -/
theorem pySplitlines_pyJoin (lines : List (List Char))
    (wf : ∀ l ∈ lines, '\n' ∉ l ∧ l ≠ []) :
    pySplitlines (pyJoin ['\n'] lines) = lines := by
  induction lines with
  | nil => rfl
  | cons l ls ih =>
    cases ls with
    | nil =>
      exact pySplitlines_single l (wf l (by simp)).1 (wf l (by simp)).2
    | cons m ms =>
      have hstep : pyJoin ['\n'] (l :: m :: ms) =
          l ++ '\n' :: pyJoin ['\n'] (m :: ms) := by
        simp [pyJoin]
      rw [hstep, pySplitlines_append l _ (wf l (by simp)).1,
        ih (fun x hx => wf x (List.mem_cons_of_mem l hx))]

theorem pyJoin_append (sep : List Char) :
    ∀ (xs ys : List (List Char)), xs ≠ [] → ys ≠ [] →
      pyJoin sep (xs ++ ys) = pyJoin sep xs ++ sep ++ pyJoin sep ys := by
  intro xs
  induction xs with
  | nil => intro ys h _; exact absurd rfl h
  | cons x xt ih =>
    intro ys _ hys
    cases xt with
    | nil =>
      cases ys with
      | nil => exact absurd rfl hys
      | cons y yt => simp [pyJoin]
    | cons x' xt' =>
      have hrec := ih ys (by simp) hys
      simp only [List.cons_append] at hrec
      simp only [List.cons_append, pyJoin, List.append_eq]
      rw [hrec]
      simp [List.append_assoc]

/-- Gluing `emptyColumns`-joined lines behind a body inserts `"","",` in
front of every line. -/
theorem emptyColumns_join :
    ∀ us : List (List Char), us ≠ [] →
      emptyColumns ++ pyJoin emptyColumns us =
        '\n' :: pyJoin ['\n'] (us.map (fun u => ecPrefix ++ u)) := by
  intro us
  induction us with
  | nil => intro h; exact absurd rfl h
  | cons u ut ih =>
    intro _
    cases ut with
    | nil => simp [pyJoin, emptyColumns_eq]
    | cons u' ut' =>
      have hrec := ih (by simp)
      simp only [pyJoin, List.map_cons]
      rw [emptyColumns_eq] at hrec ⊢
      simp only [List.append_assoc] at hrec ⊢
      rw [hrec]
      simp

theorem pyJoin_head_cons (x : List Char) (xs : List (List Char)) :
    (if 1 < (x :: xs).length then
        x ++ '\n' :: pyJoin ['\n'] ((x :: xs).drop 1)
      else x) = pyJoin ['\n'] (x :: xs) := by
  cases xs with
  | nil => simp [pyJoin]
  | cons y ys => simp [pyJoin]

theorem pyJoin_append_clause (xs : List (List Char)) (hxs : xs ≠ [])
    (y : List Char) (ys : List (List Char)) :
    (if 1 < (y :: ys).length then
        pyJoin ['\n'] xs ++ '\n' :: pyJoin ['\n'] ((y :: ys).drop 1)
      else pyJoin ['\n'] xs) = pyJoin ['\n'] (xs ++ ys) := by
  cases ys with
  | nil => simp
  | cons y' ys' =>
    rw [pyJoin_append ['\n'] xs (y' :: ys') hxs (by simp)]
    simp

theorem pyJoin_unprocessed_clause (xs : List (List Char)) (hxs : xs ≠ [])
    (y : List Char) (ys : List (List Char)) :
    (if 1 < (y :: ys).length then
        pyJoin ['\n'] xs ++ emptyColumns ++ pyJoin emptyColumns ((y :: ys).drop 1)
      else pyJoin ['\n'] xs) =
      pyJoin ['\n'] (xs ++ ys.map (fun u => ecPrefix ++ u)) := by
  cases ys with
  | nil => simp
  | cons y' ys' =>
    have hj := emptyColumns_join (y' :: ys') (by simp)
    rw [pyJoin_append ['\n'] xs ((y' :: ys').map (fun u => ecPrefix ++ u)) hxs
      (by simp)]
    simp only [List.length_cons, List.drop_succ_cons, List.drop_zero,
      List.append_assoc, if_pos (by omega : 1 < ys'.length + 1 + 1)]
    rw [hj]
    simp

/-- Characterisation of the merge on well-formed partitions: the merged
body is the success header, the success data lines, the failed data lines,
and every unprocessed data line with `"","",` planted in front of it, all
joined by newlines. -/
theorem get_job_results_eq (hS hF hU : List Char) (S F U : List (List Char))
    (wfS : ∀ l ∈ hS :: S, '\n' ∉ l ∧ l ≠ [])
    (wfF : ∀ l ∈ hF :: F, '\n' ∉ l ∧ l ≠ [])
    (wfU : ∀ l ∈ hU :: U, '\n' ∉ l ∧ l ≠ []) :
    get_job_results (pyJoin ['\n'] (hS :: S)) (pyJoin ['\n'] (hF :: F))
        (pyJoin ['\n'] (hU :: U)) =
      .ok (pyJoin ['\n']
        ((hS :: S) ++ F ++ U.map (fun u => ecPrefix ++ u))) := by
  have hs := pySplitlines_pyJoin (hS :: S) wfS
  have hf := pySplitlines_pyJoin (hF :: F) wfF
  have hu := pySplitlines_pyJoin (hU :: U) wfU
  simp only [get_job_results, hs, hf, hu]
  rw [pyJoin_head_cons hS S, pyJoin_append_clause (hS :: S) (by simp) hF F,
    pyJoin_unprocessed_clause ((hS :: S) ++ F) (by simp) hU U]

/-- The merged line list is itself well formed whenever the three
partitions are. -/
theorem merged_lines_wf (hS hF hU : List Char) (S F U : List (List Char))
    (wfS : ∀ l ∈ hS :: S, '\n' ∉ l ∧ l ≠ [])
    (wfF : ∀ l ∈ hF :: F, '\n' ∉ l ∧ l ≠ [])
    (wfU : ∀ l ∈ hU :: U, '\n' ∉ l ∧ l ≠ []) :
    ∀ l ∈ (hS :: S) ++ F ++ U.map (fun u => ecPrefix ++ u),
      '\n' ∉ l ∧ l ≠ [] := by
  intro l hl
  simp only [List.append_assoc, List.mem_append, List.mem_map] at hl
  rcases hl with h | h | ⟨u, hu2, rfl⟩
  · exact wfS l h
  · exact wfF l (List.mem_cons_of_mem hF h)
  · have hwf := wfU u (List.mem_cons_of_mem hU hu2)
    refine ⟨?_, by simp [ecPrefix]⟩
    intro hmem
    rcases List.mem_append.mp hmem with h | h
    · exact absurd h (by decide)
    · exact hwf.1 h

/-- C4: for a job whose three partitions carry `S` success, `F` failed and
`U` unprocessed data rows (each body being a header line followed by its
data rows, every line newline-free and nonempty), the merged body has
exactly `1 + S + F + U` lines. -/
theorem get_job_results_line_count (hS hF hU : List Char)
    (S F U : List (List Char))
    (wfS : ∀ l ∈ hS :: S, '\n' ∉ l ∧ l ≠ [])
    (wfF : ∀ l ∈ hF :: F, '\n' ∉ l ∧ l ≠ [])
    (wfU : ∀ l ∈ hU :: U, '\n' ∉ l ∧ l ≠ []) :
    Except.map (fun m => (pySplitlines m).length)
        (get_job_results (pyJoin ['\n'] (hS :: S)) (pyJoin ['\n'] (hF :: F))
          (pyJoin ['\n'] (hU :: U))) =
      .ok (1 + S.length + F.length + U.length) := by
  rw [get_job_results_eq hS hF hU S F U wfS wfF wfU]
  simp only [Except.map,
    pySplitlines_pyJoin _ (merged_lines_wf hS hF hU S F U wfS wfF wfU)]
  simp only [List.length_append, List.length_cons, List.length_map,
    Except.ok.injEq]
  omega

theorem get_job_results_line_count_witness :
    Except.map (fun m => (pySplitlines m).length)
        (get_job_results "a\nb".data "a\nc".data "u\nd".data) = .ok 4 :=
  get_job_results_line_count "a".data "a".data "u".data ["b".data]
    ["c".data] ["d".data] (by decide) (by decide) (by decide)

/-- C5 counterexample: the two empty-string fields are NOT appended behind
the unprocessed row's own columns.  With unprocessed body `"g\nAlice"` the
merged body's unprocessed row is `"","",Alice`: the original row text is
not even a prefix of the merged row, so nothing was appended after it. -/
theorem get_job_results_not_trailing_padding :
    get_job_results "h".data "h".data "g\nAlice".data =
      .ok "h\n\"\",\"\",Alice".data ∧
    pySplitlines "h\n\"\",\"\",Alice".data =
      ["h".data, ecPrefix ++ "Alice".data] ∧
    ¬ ("Alice".data <+: (ecPrefix ++ "Alice".data)) := by
  exact ⟨by rfl, by rfl, by decide⟩

/-- C5 amended: every unprocessed data row appears in the merged body with
the two empty-string fields `"",""` PREPENDED as leading fields (the text
`"","",` planted in front of the row), the row's own fields following
unchanged. -/
theorem get_job_results_prepends_empty_fields (hS hF hU : List Char)
    (S F U : List (List Char))
    (wfS : ∀ l ∈ hS :: S, '\n' ∉ l ∧ l ≠ [])
    (wfF : ∀ l ∈ hF :: F, '\n' ∉ l ∧ l ≠ [])
    (wfU : ∀ l ∈ hU :: U, '\n' ∉ l ∧ l ≠ []) :
    Except.map pySplitlines
        (get_job_results (pyJoin ['\n'] (hS :: S)) (pyJoin ['\n'] (hF :: F))
          (pyJoin ['\n'] (hU :: U))) =
      .ok ((hS :: S) ++ F ++ U.map (fun u => ecPrefix ++ u)) := by
  rw [get_job_results_eq hS hF hU S F U wfS wfF wfU]
  simp only [Except.map,
    pySplitlines_pyJoin _ (merged_lines_wf hS hF hU S F U wfS wfF wfU)]

theorem get_job_results_prepends_empty_fields_witness :
    Except.map pySplitlines
        (get_job_results "h".data "h".data "g\nAlice".data) =
      .ok ["h".data, "\"\",\"\",Alice".data] :=
  get_job_results_prepends_empty_fields "h".data "h".data "g".data [] []
    ["Alice".data] (by decide) (by decide) (by decide)

/-- C6 counterexample: the merger does NOT tolerate a fully empty success
body.  `result_success.splitlines()` is `[]` there, so the indexing at
bulk_v2.py line 164 raises `IndexError` even though the other two
partitions are well formed. -/
theorem get_job_results_empty_success_fails :
    get_job_results "".data "h\nx".data "h\ny".data =
      .error .indexError := by
  rfl

theorem lines_wf_append (xs ys : List (List Char))
    (hx : ∀ l ∈ xs, '\n' ∉ l ∧ l ≠ [])
    (hy : ∀ l ∈ ys, '\n' ∉ l ∧ l ≠ []) :
    ∀ l ∈ xs ++ ys, '\n' ∉ l ∧ l ≠ [] := by
  intro l hl
  rcases List.mem_append.mp hl with h | h
  · exact hx l h
  · exact hy l h

theorem lines_wf_map_ec (hU : List Char) (U : List (List Char))
    (wfU : ∀ l ∈ hU :: U, '\n' ∉ l ∧ l ≠ []) :
    ∀ l ∈ U.map (fun u => ecPrefix ++ u), '\n' ∉ l ∧ l ≠ [] := by
  intro l hl
  rcases List.mem_map.mp hl with ⟨u, hu, rfl⟩
  have hwf := wfU u (List.mem_cons_of_mem hU hu)
  refine ⟨?_, by simp [ecPrefix]⟩
  intro hmem
  rcases List.mem_append.mp hmem with h | h
  · exact absurd h (by decide)
  · exact hwf.1 h

/-- C6 amended: an empty partition (a body of only a header line or a
fully empty body, i.e. at most one line) contributes no data rows even
while the other partitions do carry rows: with an empty failed body the
merged body holds exactly the success lines and the prefixed unprocessed
rows; with an empty unprocessed body exactly the success and failed
lines; a header-only success partition contributes just its header ahead
of the failed and unprocessed rows; and with failed and unprocessed both
empty the merged body is exactly the success body's lines rejoined.  But
a fully empty success body makes the merger raise `IndexError` instead of
succeeding. -/
theorem get_job_results_empty_partitions
    (hS hF hU successAny failedE unprocE : List Char)
    (S F U : List (List Char))
    (wfS : ∀ l ∈ hS :: S, '\n' ∉ l ∧ l ≠ [])
    (wfF : ∀ l ∈ hF :: F, '\n' ∉ l ∧ l ≠ [])
    (wfU : ∀ l ∈ hU :: U, '\n' ∉ l ∧ l ≠ [])
    (hsa : pySplitlines successAny ≠ [])
    (hfe : (pySplitlines failedE).length ≤ 1)
    (hue : (pySplitlines unprocE).length ≤ 1) :
    Except.map pySplitlines
        (get_job_results (pyJoin ['\n'] (hS :: S)) failedE
          (pyJoin ['\n'] (hU :: U))) =
      .ok ((hS :: S) ++ U.map (fun u => ecPrefix ++ u)) ∧
    Except.map pySplitlines
        (get_job_results (pyJoin ['\n'] (hS :: S)) (pyJoin ['\n'] (hF :: F))
          unprocE) =
      .ok ((hS :: S) ++ F) ∧
    Except.map pySplitlines
        (get_job_results (pyJoin ['\n'] [hS]) (pyJoin ['\n'] (hF :: F))
          (pyJoin ['\n'] (hU :: U))) =
      .ok ([hS] ++ F ++ U.map (fun u => ecPrefix ++ u)) ∧
    get_job_results successAny failedE unprocE =
      .ok (pyJoin ['\n'] (pySplitlines successAny)) := by
  have hs := pySplitlines_pyJoin (hS :: S) wfS
  have hf := pySplitlines_pyJoin (hF :: F) wfF
  have hu := pySplitlines_pyJoin (hU :: U) wfU
  refine ⟨?_, ?_, ?_, ?_⟩
  · simp only [get_job_results, hs, hu]
    rw [pyJoin_head_cons hS S,
      if_neg (by omega : ¬ 1 < (pySplitlines failedE).length),
      pyJoin_unprocessed_clause (hS :: S) (by simp) hU U]
    simp only [Except.map]
    rw [pySplitlines_pyJoin _
      (lines_wf_append _ _ wfS (lines_wf_map_ec hU U wfU))]
  · simp only [get_job_results, hs, hf]
    rw [pyJoin_head_cons hS S, pyJoin_append_clause (hS :: S) (by simp) hF F,
      if_neg (by omega : ¬ 1 < (pySplitlines unprocE).length)]
    simp only [Except.map]
    rw [pySplitlines_pyJoin _ (lines_wf_append _ _ wfS
      (fun l hl => wfF l (List.mem_cons_of_mem hF hl)))]
  · have wfS1 : ∀ l ∈ [hS], '\n' ∉ l ∧ l ≠ [] := by
      intro l hl
      simp only [List.mem_singleton] at hl
      rw [hl]
      exact wfS hS (by simp)
    rw [get_job_results_eq hS hF hU [] F U wfS1 wfF wfU]
    simp only [Except.map]
    rw [pySplitlines_pyJoin _ (merged_lines_wf hS hF hU [] F U wfS1 wfF wfU)]
  · match hsl : pySplitlines successAny with
    | [] => exact absurd hsl hsa
    | first :: rest =>
      simp only [get_job_results, hsl]
      rw [if_neg (by omega : ¬ 1 < (pySplitlines failedE).length),
        if_neg (by omega : ¬ 1 < (pySplitlines unprocE).length)]
      rw [pyJoin_head_cons first rest]

theorem get_job_results_empty_partitions_witness :
    (Except.map pySplitlines
        (get_job_results "h\na".data "h".data "g\nc".data) =
      .ok ["h".data, "a".data, "\"\",\"\",c".data]) ∧
    (Except.map pySplitlines
        (get_job_results "h\na".data "h\nb".data "".data) =
      .ok ["h".data, "a".data, "b".data]) ∧
    (Except.map pySplitlines
        (get_job_results "h".data "h\nb".data "g\nc".data) =
      .ok ["h".data, "b".data, "\"\",\"\",c".data]) ∧
    get_job_results "h\na".data "h".data "".data =
      .ok (pyJoin ['\n'] (pySplitlines "h\na".data)) :=
  get_job_results_empty_partitions "h".data "h".data "g".data "h\na".data
    "h".data "".data ["a".data] ["b".data] ["c".data]
    (by decide) (by decide) (by decide) (by decide) (by decide) (by decide)

/-! ## Job pool scheduler (`_bulk_operation`, bulk_v2.py lines 212-224)

One polling pass is `for i, job in enumerate(job_ids): ...` over a list
that `job_ids.pop(i)` mutates in place.  CPython's list iterator keeps its
own cursor: after `pop(i)` at cursor position `i` the elements behind the
popped one shift left, and the next cursor value addresses the element two
places behind it, so the element that slid into slot `i` is never visited
in this pass.  The status oracle `term job` answers whether
`_get_job(job)['state']` is in `['JobComplete', 'Failed', 'Aborted']`. -/

/-- One polling pass starting at cursor `i`: query `job_ids[i]`; a terminal
job is popped and fetched at once (`job_ids.pop(i)` then
`_get_job_results`); the cursor advances either way.  Returns the remaining
list, the fetched jobs in fetch order, and the queried jobs in query
order. -/
def pollPassFrom {α : Type} (term : α → Bool) (jobs : List α) (i : Nat) :
    List α × List α × List α :=
  if h : i < jobs.length then
    let job := jobs.get ⟨i, h⟩
    if term job then
      let r := pollPassFrom term (jobs.eraseIdx i) (i + 1)
      (r.1, job :: r.2.1, job :: r.2.2)
    else
      let r := pollPassFrom term jobs (i + 1)
      (r.1, r.2.1, job :: r.2.2)
  else (jobs, [], [])
termination_by jobs.length - i
decreasing_by
  · simp only [List.length_eraseIdx, h, if_pos]
    omega
  · omega

/-- One full polling pass (cursor starting at 0). -/
def pollPass {α : Type} (term : α → Bool) (jobs : List α) :
    List α × List α × List α :=
  pollPassFrom term jobs 0

/-- Structural description of one pass: a terminal job is fetched and the
job immediately after it is kept but skipped (not queried) because of the
index shift; a non-terminal job is kept and queried. -/
def pollPassAlt {α : Type} (term : α → Bool) :
    List α → List α × List α × List α
  | [] => ([], [], [])
  | a :: rest =>
    if term a then
      match rest with
      | [] => ([], [a], [a])
      | b :: rest' =>
        let r := pollPassAlt term rest'
        (b :: r.1, a :: r.2.1, a :: r.2.2)
    else
      let r := pollPassAlt term rest
      (a :: r.1, r.2.1, a :: r.2.2)

/-- The `while job_ids:` loop (bulk_v2.py lines 213-224): run passes,
collecting each pass's fetched results in order, until the live list is
empty or the fuel runs out; the pass counter `p` feeds the status oracle
(statuses may change between passes); `sleep(wait)` is not modelled. -/
def pollLoop {α : Type} (term : Nat → α → Bool) :
    Nat → Nat → List α → List α × List α
  | _, 0, jobs => (jobs, [])
  | p, fuel + 1, jobs =>
    if jobs.isEmpty then (jobs, [])
    else
      let r := pollPass (term p) jobs
      let rest := pollLoop term (p + 1) fuel r.1
      (rest.1, r.2.1 ++ rest.2)

theorem pollPassAlt_cons_false {α : Type} (term : α → Bool) (a : α)
    (rest : List α) (ha : term a = false) :
    pollPassAlt term (a :: rest) =
      (a :: (pollPassAlt term rest).1, (pollPassAlt term rest).2.1,
       a :: (pollPassAlt term rest).2.2) := by
  cases rest with
  | nil => simp [pollPassAlt, ha]
  | cons b rs => simp [pollPassAlt, ha]

theorem pollPassAlt_singleton_true {α : Type} (term : α → Bool) (a : α)
    (ha : term a = true) :
    pollPassAlt term [a] = ([], [a], [a]) := by
  simp [pollPassAlt, ha]

theorem pollPassAlt_cons_cons_true {α : Type} (term : α → Bool) (a b : α)
    (rest' : List α) (ha : term a = true) :
    pollPassAlt term (a :: b :: rest') =
      (b :: (pollPassAlt term rest').1, a :: (pollPassAlt term rest').2.1,
       a :: (pollPassAlt term rest').2.2) := by
  simp [pollPassAlt, ha]

/-- The cursor-and-pop pass equals the structural description. -/
theorem pollPassFrom_eq_alt {α : Type} (term : α → Bool) :
    ∀ (jobs : List α) (i : Nat),
      pollPassFrom term jobs i =
        (jobs.take i ++ (pollPassAlt term (jobs.drop i)).1,
         (pollPassAlt term (jobs.drop i)).2.1,
         (pollPassAlt term (jobs.drop i)).2.2) := by
  intro jobs i
  induction jobs, i using pollPassFrom.induct term with
  | case1 jobs i h job hterm ih =>
    have hdrop : jobs.drop i = job :: jobs.drop (i + 1) :=
      List.drop_eq_getElem_cons h
    have htk : (jobs.take i).length = i := by
      simp [List.length_take, Nat.le_of_lt h]
    have herase : jobs.eraseIdx i = jobs.take i ++ jobs.drop (i + 1) :=
      List.eraseIdx_eq_take_drop_succ jobs i
    rw [pollPassFrom]
    simp only [dif_pos h, if_pos hterm]
    cases hrest : jobs.drop (i + 1) with
    | nil =>
      have hE : jobs.eraseIdx i = jobs.take i := by
        rw [herase, hrest, List.append_nil]
      rw [ih]
      rw [hE, hdrop, hrest]
      have h1 : List.take (i + 1) (jobs.take i) = jobs.take i := by
        rw [List.take_take]
        simp [Nat.min_eq_right (Nat.le_succ i)]
      have h2 : List.drop (i + 1) (jobs.take i) = [] :=
        List.drop_eq_nil_of_le (by omega)
      rw [h1, h2]
      simp [pollPassAlt, hterm]
      rfl
    | cons b rest' =>
      rw [ih]
      rw [herase, hrest]
      have h1 : List.take (i + 1) (jobs.take i ++ b :: rest') =
          jobs.take i ++ [b] := by
        rw [List.take_append_eq_append_take]
        have : List.take (i + 1) (jobs.take i) = jobs.take i := by
          rw [List.take_take]
          simp [Nat.min_eq_right (Nat.le_succ i)]
        rw [this, htk]
        simp
      have h2 : List.drop (i + 1) (jobs.take i ++ b :: rest') = rest' := by
        rw [List.drop_append_eq_append_drop]
        have : List.drop (i + 1) (jobs.take i) = [] :=
          List.drop_eq_nil_of_le (by omega)
        rw [this, htk]
        simp
      rw [h1, h2, hdrop, hrest]
      simp [pollPassAlt, hterm, List.append_assoc]
      rfl
  | case2 jobs i h job hterm ih =>
    have hdrop : jobs.drop i = jobs[i] :: jobs.drop (i + 1) :=
      List.drop_eq_getElem_cons h
    rw [pollPassFrom]
    have hterm2 : term jobs[i] = false := by
      simpa using hterm
    simp only [dif_pos h, List.get_eq_getElem, hterm2, Bool.false_eq_true,
      if_false]
    rw [ih, hdrop, pollPassAlt_cons_false term _ _ hterm2]
    refine Prod.ext ?_ rfl
    rw [← List.take_concat_get' jobs i h, List.append_assoc]
    rfl
  | case3 jobs i h =>
    rw [pollPassFrom]
    simp only [dif_neg h]
    rw [List.drop_eq_nil_of_le (by omega), List.take_of_length_le (by omega)]
    simp [pollPassAlt]

theorem pollPass_eq_alt {α : Type} (term : α → Bool) (jobs : List α) :
    pollPass term jobs = pollPassAlt term jobs := by
  rw [pollPass, pollPassFrom_eq_alt term jobs 0]
  rfl

/-- Jobs are fetched exactly when they are queried and report terminal. -/
theorem pollPassAlt_fetched_eq_filter {α : Type} (term : α → Bool) :
    ∀ l : List α,
      (pollPassAlt term l).2.1 = ((pollPassAlt term l).2.2).filter term := by
  intro l
  induction l using pollPassAlt.induct term with
  | case1 => rfl
  | case2 a ha => simp [pollPassAlt, ha]
  | case3 a ha b rest' ih =>
    rw [pollPassAlt_cons_cons_true term a b rest' ha]
    simp [ha, ih]
  | case4 a rest hna ih =>
    have hfa : term a = false := by simpa using hna
    rw [pollPassAlt_cons_false term a rest hfa]
    simp [hfa, ih]

/-- The queried jobs form a subsequence of the live list. -/
theorem pollPassAlt_queried_sublist {α : Type} (term : α → Bool) :
    ∀ l : List α, ((pollPassAlt term l).2.2).Sublist l := by
  intro l
  induction l using pollPassAlt.induct term with
  | case1 => simp [pollPassAlt]
  | case2 a ha => simp [pollPassAlt, ha]
  | case3 a ha b rest' ih =>
    rw [pollPassAlt_cons_cons_true term a b rest' ha]
    exact (ih.cons b).cons₂ a
  | case4 a rest hna ih =>
    have hfa : term a = false := by simpa using hna
    rw [pollPassAlt_cons_false term a rest hfa]
    exact ih.cons₂ a

/-- One pass neither loses nor duplicates jobs: the live list splits into
the kept jobs and the fetched jobs. -/
theorem pollPassAlt_perm {α : Type} (term : α → Bool) :
    ∀ l : List α,
      l.Perm ((pollPassAlt term l).1 ++ (pollPassAlt term l).2.1) := by
  intro l
  induction l using pollPassAlt.induct term with
  | case1 => rfl
  | case2 a ha => simp [pollPassAlt, ha]
  | case3 a ha b rest' ih =>
    rw [pollPassAlt_cons_cons_true term a b rest' ha]
    have h1 : (a :: b :: rest').Perm (b :: a :: rest') :=
      List.Perm.swap b a rest'
    have h2 := (ih.cons a).cons b
    have h3 : (b :: a :: ((pollPassAlt term rest').1 ++
        (pollPassAlt term rest').2.1)).Perm
        (b :: ((pollPassAlt term rest').1 ++
          a :: (pollPassAlt term rest').2.1)) :=
      List.Perm.cons b List.perm_middle.symm
    have h4 := (h1.trans h2).trans h3
    simpa using h4
  | case4 a rest hna ih =>
    have hfa : term a = false := by simpa using hna
    rw [pollPassAlt_cons_false term a rest hfa]
    exact ih.cons a

theorem pollPassAlt_remaining_le {α : Type} (term : α → Bool) :
    ∀ l : List α, (pollPassAlt term l).1.length ≤ l.length := by
  intro l
  induction l using pollPassAlt.induct term with
  | case1 => simp [pollPassAlt]
  | case2 a ha => simp [pollPassAlt_singleton_true term a ha]
  | case3 a ha b rest' ih =>
    rw [pollPassAlt_cons_cons_true term a b rest' ha]
    simpa using Nat.le_trans ih (Nat.le_succ _)
  | case4 a rest hna ih =>
    have hfa : term a = false := by simpa using hna
    rw [pollPassAlt_cons_false term a rest hfa]
    simpa using ih

theorem pollPass_remaining_lt {α : Type} (term : α → Bool) (l : List α)
    (hl : l ≠ []) (hall : ∀ j, term j = true) :
    (pollPass term l).1.length < l.length := by
  rw [pollPass_eq_alt]
  match l, hl with
  | a :: rest, _ =>
    cases rest with
    | nil => simp [pollPassAlt_singleton_true term a (hall a)]
    | cons b rest' =>
      rw [pollPassAlt_cons_cons_true term a b rest' (hall a)]
      have := pollPassAlt_remaining_le term rest'
      simp only [List.length_cons]
      omega

/-- With every job reporting terminal, as many passes as there are jobs
drain the live list. -/
theorem pollLoop_empties {α : Type} (term : Nat → α → Bool)
    (hall : ∀ p j, term p j = true) :
    ∀ (n p : Nat) (jobs : List α), jobs.length ≤ n →
      (pollLoop term p n jobs).1 = [] := by
  intro n
  induction n with
  | zero =>
    intro p jobs hlen
    have : jobs = [] := List.length_eq_zero.mp (Nat.le_zero.mp hlen)
    simp [pollLoop, this]
  | succ n ih =>
    intro p jobs hlen
    rw [pollLoop]
    by_cases hj : jobs.isEmpty
    · simp [hj, List.isEmpty_iff.mp hj]
    · simp only [hj, Bool.false_eq_true, if_false]
      have hne : jobs ≠ [] := fun h => hj (by simp [h])
      have hlt := pollPass_remaining_lt (term p) jobs hne (hall p)
      exact ih (p + 1) (pollPass (term p) jobs).1 (by omega)

/-- Across the whole loop, the initial live list splits into the jobs
still live at the end and the jobs fetched, without loss or
duplication. -/
theorem pollLoop_perm {α : Type} (term : Nat → α → Bool) :
    ∀ (n p : Nat) (jobs : List α),
      jobs.Perm ((pollLoop term p n jobs).1 ++ (pollLoop term p n jobs).2) := by
  intro n
  induction n with
  | zero => intro p jobs; simp [pollLoop]
  | succ n ih =>
    intro p jobs
    rw [pollLoop]
    by_cases hj : jobs.isEmpty
    · simp [hj, List.isEmpty_iff.mp hj]
    · simp only [hj, Bool.false_eq_true, if_false]
      have hpass : jobs.Perm ((pollPass (term p) jobs).1 ++
          (pollPass (term p) jobs).2.1) := by
        rw [pollPass_eq_alt]
        exact pollPassAlt_perm (term p) jobs
      have hrec := ih (p + 1) (pollPass (term p) jobs).1
      have h1 := hpass.trans
        (hrec.append_right (pollPass (term p) jobs).2.1)
      have h2 := (@List.perm_append_comm α
        (pollLoop term (p + 1) n (pollPass (term p) jobs).1).2
        (pollPass (term p) jobs).2.1).append_left
        (pollLoop term (p + 1) n (pollPass (term p) jobs).1).1
      have h3 := h1.trans (by simpa [List.append_assoc] using h2)
      simpa using h3

/-- C7 counterexample: not every live job is queried once per pass.  With
two jobs that both report terminal, the pass queries and fetches only the
first one: popping it shifts the second job into slot 0 while the cursor
moves to 1, so the second job is skipped and stays for the next pass. -/
theorem pollPass_skips_after_removal :
    (pollPass (fun _ : String => true) ["a", "b"]).2.2 = ["a"] ∧
    (pollPass (fun _ : String => true) ["a", "b"]).2.2 ≠ ["a", "b"] ∧
    (pollPass (fun _ : String => true) ["a", "b"]).1 = ["b"] := by
  simp only [pollPass_eq_alt]
  exact ⟨by decide, by decide, by decide⟩

/-- C7 amended: each polling pass walks the live list by increasing
cursor, queries the job under the cursor, and removes and immediately
fetches it when it reports terminal — but the job that shifts into the
freed slot is skipped for the rest of the pass, so a pass queries only a
subsequence of the live list (`pollPassAlt` describes the skip exactly);
fetched jobs are precisely the queried ones that report terminal; a pass
neither loses nor duplicates jobs; and the loop repeats pass after pass
until the live list is empty — when every job reports terminal it drains
within one pass per job, every job fetched exactly once. -/
theorem pollPass_characterisation {α : Type} (term : α → Bool)
    (jobs : List α) :
    pollPass term jobs = pollPassAlt term jobs ∧
    (pollPass term jobs).2.1 = ((pollPass term jobs).2.2).filter term ∧
    ((pollPass term jobs).2.2).Sublist jobs ∧
    jobs.Perm ((pollPass term jobs).1 ++ (pollPass term jobs).2.1) ∧
    (∀ sched : Nat → α → Bool, (∀ p j, sched p j = true) →
      (pollLoop sched 0 jobs.length jobs).1 = [] ∧
      jobs.Perm (pollLoop sched 0 jobs.length jobs).2) := by
  refine ⟨pollPass_eq_alt term jobs, ?_, ?_, ?_, ?_⟩
  · simp only [pollPass_eq_alt]
    exact pollPassAlt_fetched_eq_filter term jobs
  · simp only [pollPass_eq_alt]
    exact pollPassAlt_queried_sublist term jobs
  · simp only [pollPass_eq_alt]
    exact pollPassAlt_perm term jobs
  · intro sched hall
    have hempty := pollLoop_empties sched hall jobs.length 0 jobs le_rfl
    have hperm := pollLoop_perm sched jobs.length 0 jobs
    rw [hempty] at hperm
    exact ⟨hempty, by simpa using hperm⟩

theorem pollPass_characterisation_witness :
    (pollLoop (fun _ (_ : Nat) => true) 0 2 [7, 9]).1 = [] :=
  ((pollPass_characterisation (fun _ : Nat => true) [7, 9]).2.2.2.2
    (fun _ _ => true) (fun _ _ => rfl)).1

/-! ## HTTP layer and the end-to-end bulk operation

`call_salesforce`/`exception_handler` (util.py lines 47-80) and
`_bulk_operation` (bulk_v2.py lines 179-226) against a scripted remote: an
environment `env : Nat → Response` answers the `n`-th HTTP request of the
operation.  A run threads a `RunState` carrying the request counter and
the trace of issued requests; raising a Python exception is returning
`.error`. -/

/-- The exception classes `exception_handler` can raise, by HTTP status
(util.py lines 55-62). -/
inductive SFError
  | moreThanOneRecord
  | malformedRequest
  | expiredSession
  | refusedRequest
  | resourceNotFound
  | generalError
deriving DecidableEq

/-- `exc_map.get(result.status_code, SalesforceGeneralError)`
(util.py lines 55-62). -/
def excFor (status : Nat) : SFError :=
  if status = 300 then .moreThanOneRecord
  else if status = 400 then .malformedRequest
  else if status = 401 then .expiredSession
  else if status = 403 then .refusedRequest
  else if status = 404 then .resourceNotFound
  else .generalError

inductive Method
  | post
  | put
  | patch
  | get
deriving DecidableEq

/-- The JSON payload of `_create_job` (bulk_v2.py lines 94-102).
`externalIdFieldName` is `none` when the key is absent (any non-upsert
operation) and `some eid` when the key is present (upsert), where `eid`
itself is `none` for Python `None`. -/
structure JobPayload where
  operation : String
  object : String
  contentType : String
  lineEnding : String
  externalIdFieldName : Option (Option String)
deriving DecidableEq

/-- Request bodies: the create-job JSON, a CSV batch (kept at row
granularity like the chunks), the `{'state': 'UploadComplete'}` close
payload, or nothing (GET). -/
inductive ReqBody
  | json (p : JobPayload)
  | csv (chunk : List Row)
  | close
  | none
deriving DecidableEq

structure Request where
  method : Method
  url : String
  body : ReqBody
deriving DecidableEq

/-- A scripted remote response: the HTTP status plus the decoded fields
the code reads — `result.json()['id']`, `result.json()['state']` and
`result.content.decode('utf-8')`. -/
structure Response where
  status : Nat
  id : String
  state : String
  content : List Char

/-- Everything a run can raise: the `exception_handler` errors, the
`IndexError` inside `_get_job_results`, the `split_csv` errors, and
`fuel` for the model artefact of cutting the unbounded `while job_ids:`
loop off (the Python loop can poll forever). -/
inductive RunError
  | sf (e : SFError)
  | merge (e : MergeError)
  | split (e : SplitError)
  | fuel
deriving DecidableEq

/-- Run state: `k` requests issued so far (the next request consumes
response `env k`), and the requests in order. -/
structure RunState where
  k : Nat
  trace : List Request
deriving DecidableEq

/-- `call_salesforce` (util.py lines 67-80): issue the request, then route
any status ≥ 300 through `exception_handler` (util.py lines 47-64). -/
def call_salesforce (env : Nat → Response) (req : Request) (s : RunState) :
    Except RunError Response × RunState :=
  let resp := env s.k
  let s' : RunState := ⟨s.k + 1, s.trace ++ [req]⟩
  if 300 ≤ resp.status then (.error (.sf (excFor resp.status)), s')
  else (.ok resp, s')

/-- Python statement sequencing over the run state: an uncaught exception
in the first step skips the rest. -/
def andThen {α β : Type} (f : RunState → Except RunError α × RunState)
    (g : α → RunState → Except RunError β × RunState) (s : RunState) :
    Except RunError β × RunState :=
  match f s with
  | (.error e, s') => (.error e, s')
  | (.ok a, s') => g a s'

/-- `_create_job` (bulk_v2.py lines 79-109): POST the job payload to the
bulk url; `externalIdFieldName` is added only for upsert. -/
def _create_job (env : Nat → Response) (bulk_url object_name operation : String)
    (external_id_field : Option String) :
    RunState → Except RunError Response × RunState :=
  call_salesforce env
    ⟨.post, bulk_url,
     .json ⟨operation, object_name, "CSV", "LF",
       if operation == "upsert" then some external_id_field else none⟩⟩

/-- `_add_batch` (bulk_v2.py lines 111-123): PUT the chunk to
`{bulk_url}{job_id}/batches/`. -/
def _add_batch (env : Nat → Response) (bulk_url job_id : String)
    (data : List Row) : RunState → Except RunError Response × RunState :=
  call_salesforce env ⟨.put, bulk_url ++ job_id ++ "/batches/", .csv data⟩

/-- `_close_job` (bulk_v2.py lines 125-136): PATCH
`{'state': 'UploadComplete'}` to `{bulk_url}{job_id}`. -/
def _close_job (env : Nat → Response) (bulk_url job_id : String) :
    RunState → Except RunError Response × RunState :=
  call_salesforce env ⟨.patch, bulk_url ++ job_id, .close⟩

/-- `_get_job` (bulk_v2.py lines 138-144): GET the job status. -/
def _get_job (env : Nat → Response) (bulk_url job_id : String) :
    RunState → Except RunError Response × RunState :=
  call_salesforce env ⟨.get, bulk_url ++ job_id, .none⟩

/-- `_get_job_results` (bulk_v2.py lines 146-176): three GETs for the
partitions, then the pure merge of the decoded bodies. -/
def _get_job_results (env : Nat → Response) (bulk_url job_id : String) :
    RunState → Except RunError (List Char) × RunState :=
  andThen (call_salesforce env
      ⟨.get, bulk_url ++ job_id ++ "/successfulResults/", .none⟩)
    (fun rs =>
      andThen (call_salesforce env
          ⟨.get, bulk_url ++ job_id ++ "/failedResults/", .none⟩)
        (fun rf =>
          andThen (call_salesforce env
              ⟨.get, bulk_url ++ job_id ++ "/unprocessedrecords/", .none⟩)
            (fun ru => fun s =>
              match get_job_results rs.content rf.content ru.content with
              | .error e => (.error (.merge e), s)
              | .ok m => (.ok m, s))))

/-- `json_list_to_file` (util.py lines 83-97) at row granularity: header
row from the first record's keys, then one row of values per record taken
in header order (`csv.DictWriter`; a key missing from a record is written
as the empty `restval`).  An empty record list writes nothing at all. -/
def json_list_to_file (data : List (List (String × String))) : List Row :=
  match data with
  | [] => []
  | r :: _ =>
    let fields := r.map Prod.fst
    fields :: data.map (fun row => fields.map (fun f =>
      match row.find? (fun kv => kv.1 == f) with
      | some kv => kv.2
      | Option.none => ""))

/-- The chunk-submission loop of `_bulk_operation` (bulk_v2.py lines
198-210): per chunk create a job, upload the chunk as its single batch,
close the job, and collect `job['id']`. -/
def uploadChunks (env : Nat → Response)
    (bulk_url object_name operation : String) (eid : Option String) :
    List (List Row) → RunState → Except RunError (List String) × RunState
  | [] => fun s => (.ok [], s)
  | chunk :: rest =>
    andThen (_create_job env bulk_url object_name operation eid) (fun job =>
      andThen (_add_batch env bulk_url job.id chunk) (fun _ =>
        andThen (_close_job env bulk_url job.id) (fun _ =>
          andThen (uploadChunks env bulk_url object_name operation eid rest)
            (fun ids => fun s => (.ok (job.id :: ids), s)))))

/-- One polling pass of `_bulk_operation` (bulk_v2.py lines 214-223) with
its HTTP calls, in the skip shape proved equivalent to the
`enumerate`/`pop(i)` cursor semantics by `pollPassFrom_eq_alt`: query the
job's status; a terminal job (`JobComplete`/`Failed`/`Aborted`) is popped
and its results fetched immediately, and the job that shifts into its slot
is kept but skipped for this pass; a non-terminal job is kept.  Returns
the remaining jobs and the fetched merged bodies in fetch order. -/
def pollPassHttp (env : Nat → Response) (bulk_url : String) :
    List String → RunState →
      Except RunError (List String × List (List Char)) × RunState
  | [] => fun s => (.ok ([], []), s)
  | job :: rest =>
    andThen (_get_job env bulk_url job) (fun resp =>
      if resp.state == "JobComplete" || resp.state == "Failed" ||
          resp.state == "Aborted" then
        andThen (_get_job_results env bulk_url job) (fun body =>
          match rest with
          | [] => fun s => (.ok ([], [body]), s)
          | b :: rest' =>
            andThen (pollPassHttp env bulk_url rest') (fun rb =>
              fun s => (.ok (b :: rb.1, body :: rb.2), s)))
      else
        andThen (pollPassHttp env bulk_url rest) (fun rb =>
          fun s => (.ok (job :: rb.1, rb.2), s)))

/-- The `while job_ids:` loop (bulk_v2.py lines 213-224) with fuel,
accumulating each pass's fetched bodies in order (`results.append`). -/
def pollLoopHttp (env : Nat → Response) (bulk_url : String) :
    Nat → List String → List (List Char) → RunState →
      Except RunError (List (List Char)) × RunState
  | 0, jobs, acc =>
    if jobs.isEmpty then fun s => (.ok acc, s) else fun s => (.error .fuel, s)
  | fuel + 1, jobs, acc =>
    if jobs.isEmpty then fun s => (.ok acc, s)
    else
      andThen (pollPassHttp env bulk_url jobs) (fun r =>
        pollLoopHttp env bulk_url fuel r.1 (acc ++ r.2))

/-- The body of `_bulk_operation` (bulk_v2.py lines 179-226): encode the
record list to CSV rows, chunk with `split_csv(data, 100)`, submit every
chunk, poll the job pool, and join the merged bodies with newlines. -/
def bulkBody (env : Nat → Response) (bulk_url object_name operation : String)
    (data : List (List (String × String))) (eid : Option String)
    (fuel : Nat) : RunState → Except RunError (List Char) × RunState :=
  match split_csv (100 * 1024 * 1024) (json_list_to_file data) with
  | .error e => fun s => (.error (.split e), s)
  | .ok chunks =>
    andThen (uploadChunks env bulk_url object_name operation eid chunks)
      (fun ids =>
        andThen (pollLoopHttp env bulk_url fuel ids [])
          (fun results => fun s' => (.ok (pyJoin ['\n'] results), s')))

/-- `_bulk_operation`, run from a fresh state (no requests issued yet). -/
def _bulk_operation (env : Nat → Response)
    (bulk_url object_name operation : String)
    (data : List (List (String × String))) (eid : Option String)
    (fuel : Nat) : Except RunError (List Char) × RunState :=
  bulkBody env bulk_url object_name operation data eid fuel ⟨0, []⟩

/-- `insert` (bulk_v2.py lines 235-239). -/
def insert (env : Nat → Response) (bulk_url object_name : String)
    (data : List (List (String × String))) (fuel : Nat) :
    Except RunError (List Char) × RunState :=
  _bulk_operation env bulk_url object_name "insert" data Option.none fuel

/-- `update` (bulk_v2.py lines 249-253). -/
def update (env : Nat → Response) (bulk_url object_name : String)
    (data : List (List (String × String))) (fuel : Nat) :
    Except RunError (List Char) × RunState :=
  _bulk_operation env bulk_url object_name "update" data Option.none fuel

/-- `delete` (bulk_v2.py lines 229-233). -/
def delete (env : Nat → Response) (bulk_url object_name : String)
    (data : List (List (String × String))) (fuel : Nat) :
    Except RunError (List Char) × RunState :=
  _bulk_operation env bulk_url object_name "delete" data Option.none fuel

/-- `upsert` (bulk_v2.py lines 241-247); `external_id_field = none` models
passing Python `None`. -/
def upsert (env : Nat → Response) (bulk_url object_name : String)
    (data : List (List (String × String))) (external_id_field : Option String)
    (fuel : Nat) : Except RunError (List Char) × RunState :=
  _bulk_operation env bulk_url object_name "upsert" data external_id_field fuel

/-- An all-good scripted remote used in concrete runs. -/
def okEnv : Nat → Response := fun _ => ⟨200, "J1", "JobComplete", "g\nu".data⟩

/-- Sanity: a one-record insert against `okEnv` makes 7 requests (create,
batch, close, status, three result fetches) and succeeds. -/
example :
    (insert okEnv "B/" "Contact" [[("Name", "X")]] 2).2.trace.length = 7 ∧
    ((insert okEnv "B/" "Contact" [[("Name", "X")]] 2).1).isOk = true := by
  exact ⟨by rfl, by rfl⟩

/-- All scripted responses with index in `[a, b)` have good (< 300)
statuses. -/
def GoodUpTo (env : Nat → Response) (a b : Nat) : Prop :=
  ∀ j, a ≤ j → j < b → (env j).status < 300

/-- A run component behaves like straight-line code built from
`call_salesforce`: it consumes one scripted response per request it
appends to the trace, it ends with all consumed responses good unless it
raises an `exception_handler` error, and such an error is exactly the one
mapped from the first bad response, with no request issued after it. -/
def CallStrict (env : Nat → Response) {α : Type}
    (f : RunState → Except RunError α × RunState) : Prop :=
  ∀ s : RunState,
    s.k ≤ (f s).2.k ∧
    (f s).2.trace.length + s.k = s.trace.length + (f s).2.k ∧
    (∃ t, (f s).2.trace = s.trace ++ t) ∧
    ((∀ e, (f s).1 ≠ .error (.sf e)) → GoodUpTo env s.k (f s).2.k) ∧
    (∀ e, (f s).1 = .error (.sf e) →
      s.k < (f s).2.k ∧ GoodUpTo env s.k ((f s).2.k - 1) ∧
      300 ≤ (env ((f s).2.k - 1)).status ∧
      e = excFor (env ((f s).2.k - 1)).status)

theorem cs_const (env : Nat → Response) {α : Type} (r : Except RunError α)
    (hr : ∀ e, r ≠ .error (.sf e)) :
    CallStrict env (fun s => (r, s)) := by
  intro s
  refine ⟨le_rfl, rfl, ⟨[], by simp⟩, ?_, ?_⟩
  · intro _ j h1 h2
    exact absurd (Nat.lt_of_le_of_lt h1 h2) (Nat.lt_irrefl _)
  · intro e he
    exact absurd he (hr e)

theorem cs_call (env : Nat → Response) (req : Request) :
    CallStrict env (call_salesforce env req) := by
  intro s
  simp only [call_salesforce]
  by_cases hb : 300 ≤ (env s.k).status
  · simp only [if_pos hb]
    refine ⟨Nat.le_succ _, by simp; omega, ⟨[req], rfl⟩, ?_, ?_⟩
    · intro h
      exact absurd rfl (h _)
    · intro e he
      have he' : e = excFor (env s.k).status := by
        cases he
        rfl
      refine ⟨Nat.lt_succ_self _, ?_, by simpa using hb, by simpa using he'⟩
      intro j h1 h2
      omega
  · simp only [if_neg hb]
    refine ⟨Nat.le_succ _, by simp; omega, ⟨[req], rfl⟩, ?_, ?_⟩
    · intro _ j h1 h2
      have : j = s.k := by omega
      subst this
      omega
    · intro e he
      exact absurd he (by simp)

theorem cs_andThen (env : Nat → Response) {α β : Type}
    {f : RunState → Except RunError α × RunState}
    {g : α → RunState → Except RunError β × RunState}
    (hf : CallStrict env f) (hg : ∀ a, CallStrict env (g a)) :
    CallStrict env (andThen f g) := by
  intro s
  obtain ⟨h1, h2, ⟨t1, h3⟩, h4, h5⟩ := hf s
  rcases hres : f s with ⟨r, s'⟩
  rw [hres] at h1 h2 h3 h4 h5
  dsimp only at h1 h2 h3 h4 h5
  cases r with
  | error e =>
    simp only [andThen, hres]
    refine ⟨h1, h2, ⟨t1, h3⟩, ?_, ?_⟩
    · intro hne
      refine h4 ?_
      intro e1 h
      cases h
      exact absurd rfl (hne e1)
    · intro e1 he1
      cases he1
      exact h5 e1 rfl
  | ok a =>
    simp only [andThen, hres]
    obtain ⟨g1, g2, ⟨t2, g3⟩, g4, g5⟩ := hg a s'
    have hfgood : GoodUpTo env s.k s'.k := h4 (fun e h => by simp at h)
    refine ⟨Nat.le_trans h1 g1, by omega, ⟨t1 ++ t2, ?_⟩, ?_, ?_⟩
    · rw [g3, h3, List.append_assoc]
    · intro hne
      intro j hj hjf
      by_cases hjs : j < s'.k
      · exact hfgood j hj hjs
      · exact g4 hne j (by omega) hjf
    · intro e he
      obtain ⟨k1, k2, k3, k4⟩ := g5 e he
      refine ⟨Nat.lt_of_le_of_lt h1 k1, ?_, k3, k4⟩
      intro j hj hjf
      by_cases hjs : j < s'.k
      · exact hfgood j hj hjs
      · exact k2 j (by omega) hjf

theorem cs_ite (env : Nat → Response) {α : Type} (c : Prop) [Decidable c]
    (f g : RunState → Except RunError α × RunState)
    (hf : CallStrict env f) (hg : CallStrict env g) :
    CallStrict env (if c then f else g) := by
  by_cases h : c
  · simpa [h] using hf
  · simpa [h] using hg

theorem cs_get_job_results (env : Nat → Response) (bulk_url job_id : String) :
    CallStrict env (_get_job_results env bulk_url job_id) := by
  refine cs_andThen env (cs_call env _) (fun rs => ?_)
  refine cs_andThen env (cs_call env _) (fun rf => ?_)
  refine cs_andThen env (cs_call env _) (fun ru => ?_)
  cases hm : get_job_results rs.content rf.content ru.content with
  | error e =>
    simpa [hm] using
      cs_const env (.error (.merge e) : Except RunError (List Char)) (by simp)
  | ok m =>
    simpa [hm] using
      cs_const env (.ok m : Except RunError (List Char)) (by simp)

theorem cs_uploadChunks (env : Nat → Response)
    (bulk_url object_name operation : String) (eid : Option String) :
    ∀ chunks,
      CallStrict env (uploadChunks env bulk_url object_name operation eid
        chunks) := by
  intro chunks
  induction chunks with
  | nil =>
    simp only [uploadChunks]
    exact cs_const env _ (by simp)
  | cons c rest ih =>
    simp only [uploadChunks]
    refine cs_andThen env (cs_call env _) (fun job => ?_)
    refine cs_andThen env (cs_call env _) (fun _ => ?_)
    refine cs_andThen env (cs_call env _) (fun _ => ?_)
    refine cs_andThen env ih (fun ids => ?_)
    exact cs_const env _ (by simp)

theorem cs_pollPassHttp (env : Nat → Response) (bulk_url : String) :
    ∀ jobs, CallStrict env (pollPassHttp env bulk_url jobs) := by
  suffices h : ∀ (n : Nat) (jobs : List String), jobs.length ≤ n →
      CallStrict env (pollPassHttp env bulk_url jobs) from
    fun jobs => h jobs.length jobs le_rfl
  intro n
  induction n with
  | zero =>
    intro jobs hlen
    have hnil : jobs = [] := List.length_eq_zero.mp (Nat.le_zero.mp hlen)
    subst hnil
    simp only [pollPassHttp]
    exact cs_const env _ (by simp)
  | succ n ih =>
    intro jobs hlen
    cases jobs with
    | nil =>
      simp only [pollPassHttp]
      exact cs_const env _ (by simp)
    | cons job rest =>
      simp only [List.length_cons] at hlen
      simp only [pollPassHttp]
      refine cs_andThen env (cs_call env _) (fun resp => ?_)
      refine cs_ite env _ _ _ ?_ ?_
      · refine cs_andThen env (cs_get_job_results env bulk_url job)
          (fun body => ?_)
        cases rest with
        | nil => exact cs_const env _ (by simp)
        | cons b rest' =>
          refine cs_andThen env
            (ih rest' (by simp only [List.length_cons] at hlen ⊢; omega))
            (fun rb => ?_)
          exact cs_const env _ (by simp)
      · refine cs_andThen env (ih rest (by omega)) (fun rb => ?_)
        exact cs_const env _ (by simp)

theorem cs_pollLoopHttp (env : Nat → Response) (bulk_url : String) :
    ∀ (fuel : Nat) (jobs : List String) (acc : List (List Char)),
      CallStrict env (pollLoopHttp env bulk_url fuel jobs acc) := by
  intro fuel
  induction fuel with
  | zero =>
    intro jobs acc
    simp only [pollLoopHttp]
    exact cs_ite env _ _ _ (cs_const env _ (by simp)) (cs_const env _ (by simp))
  | succ fuel ih =>
    intro jobs acc
    simp only [pollLoopHttp]
    refine cs_ite env _ _ _ (cs_const env _ (by simp)) ?_
    refine cs_andThen env (cs_pollPassHttp env bulk_url jobs) (fun r => ?_)
    exact ih r.1 (acc ++ r.2)

theorem cs_bulkBody (env : Nat → Response)
    (bulk_url object_name operation : String)
    (data : List (List (String × String))) (eid : Option String)
    (fuel : Nat) :
    CallStrict env
      (bulkBody env bulk_url object_name operation data eid fuel) := by
  rw [bulkBody]
  cases split_csv (100 * 1024 * 1024) (json_list_to_file data) with
  | error e => exact cs_const env _ (by simp)
  | ok chunks =>
    refine cs_andThen env
      (cs_uploadChunks env bulk_url object_name operation eid chunks)
      (fun ids => ?_)
    refine cs_andThen env (cs_pollLoopHttp env bulk_url fuel ids []) (fun results => ?_)
    exact cs_const env _ (by simp)

/-- A call-strict run started from a fresh state, against responses whose
first bad status sits at position `k`, either finishes within `k` requests
or stops right at request `k + 1` with the error mapped from that
status. -/
theorem callStrict_firstBad (env : Nat → Response) {α : Type}
    (f : RunState → Except RunError α × RunState) (hcs : CallStrict env f)
    (k : Nat) (hgood : ∀ j, j < k → (env j).status < 300)
    (hbad : 300 ≤ (env k).status) :
    (f ⟨0, []⟩).2.trace.length ≤ k ∨
      ((f ⟨0, []⟩).1 = .error (.sf (excFor (env k).status)) ∧
        (f ⟨0, []⟩).2.trace.length = k + 1) := by
  obtain ⟨h1, h2, _, h4, h5⟩ := hcs ⟨0, []⟩
  simp only [List.length_nil] at h2
  by_cases hsf : ∃ e0, (f ⟨0, []⟩).1 = Except.error (RunError.sf e0)
  · obtain ⟨e0, hr⟩ := hsf
    obtain ⟨k1, k2, k3, k4⟩ := h5 e0 hr
    have hkk : (f ⟨0, []⟩).2.k - 1 = k := by
      by_cases hlt : (f ⟨0, []⟩).2.k - 1 < k
      · exact absurd k3 (by have := hgood _ hlt; omega)
      · by_cases hgt : k < (f ⟨0, []⟩).2.k - 1
        · exact absurd (k2 k (Nat.zero_le k) hgt) (by omega)
        · omega
    right
    constructor
    · rw [hr, k4, hkk]
    · omega
  · left
    have hgd := h4 (fun e h => hsf ⟨e, h⟩)
    by_cases hk : k < (f ⟨0, []⟩).2.k
    · exact absurd (hgd k (Nat.zero_le k) hk) (by omega)
    · omega

theorem splitRun_ne_nil (maxBytes : Nat) (header : Row) :
    ∀ (rows acc : List Row) (n : Nat),
      splitRun maxBytes header acc n rows ≠ [] := by
  intro rows
  induction rows with
  | nil =>
    intro acc n
    simp [splitRun]
  | cons r rest ih =>
    intro acc n
    simp only [splitRun]
    split
    · simp
    · exact ih (acc ++ [r]) (n + rowCost r)

theorem andThen_assoc {α β γ : Type}
    (f : RunState → Except RunError α × RunState)
    (g : α → RunState → Except RunError β × RunState)
    (h : β → RunState → Except RunError γ × RunState) (s : RunState) :
    andThen (andThen f g) h s = andThen f (fun a => andThen (g a) h) s := by
  rcases hres : f s with ⟨r, s'⟩
  cases r <;> simp [andThen, hres]

theorem andThen_call_trace_head (env : Nat → Response) (req : Request)
    {β : Type} (g : Response → RunState → Except RunError β × RunState)
    (hg : ∀ a, CallStrict env (g a)) :
    ((andThen (call_salesforce env req) g) ⟨0, []⟩).2.trace.head? =
      some req := by
  simp only [andThen, call_salesforce]
  by_cases hb : 300 ≤ (env (0 : Nat)).status
  · simp [hb]
  · simp only [hb, if_false]
    obtain ⟨_, _, ⟨t, ht⟩, _, _⟩ :=
      hg (env (0 : Nat)) ⟨0 + 1, [] ++ [req]⟩
    simp only [List.nil_append] at ht ⊢
    rw [ht]
    rfl

/-- When there is at least one record, the run opens with the create-job
POST carrying the payload of `_create_job`, followed by a call-strict
continuation. -/
theorem bulk_starts_with_create (env : Nat → Response)
    (bulk_url object_name operation : String)
    (data : List (List (String × String))) (eid : Option String)
    (fuel : Nat) (hdata : data ≠ []) :
    ∃ G : Response → RunState → Except RunError (List Char) × RunState,
      (∀ a, CallStrict env (G a)) ∧
      _bulk_operation env bulk_url object_name operation data eid fuel =
        andThen (call_salesforce env
          ⟨.post, bulk_url, .json ⟨operation, object_name, "CSV", "LF",
            if operation == "upsert" then some eid else none⟩⟩) G ⟨0, []⟩ := by
  match data, hdata with
  | r :: rs, _ =>
    rcases hchunks : splitRun (100 * 1024 * 1024) (r.map Prod.fst) [] 0
        (((r.map Prod.fst).map (fun f =>
            match r.find? (fun kv => kv.1 == f) with
            | some kv => kv.2
            | Option.none => "")) ::
          rs.map (fun row => (r.map Prod.fst).map (fun f =>
            match row.find? (fun kv => kv.1 == f) with
            | some kv => kv.2
            | Option.none => "")))
      with _ | ⟨c, cs⟩
    · exact absurd hchunks (splitRun_ne_nil _ _ _ _ _)
    · refine ⟨fun job =>
        andThen (andThen (_add_batch env bulk_url job.id c) (fun _ =>
          andThen (_close_job env bulk_url job.id) (fun _ =>
            andThen (uploadChunks env bulk_url object_name operation eid cs)
              (fun ids => fun s => (.ok (job.id :: ids), s)))))
          (fun ids =>
            andThen (pollLoopHttp env bulk_url fuel ids [])
              (fun results => fun s' => (.ok (pyJoin ['\n'] results), s'))),
        ?_, ?_⟩
      · intro a
        refine cs_andThen env ?_ (fun ids => ?_)
        · refine cs_andThen env (cs_call env _) (fun _ => ?_)
          refine cs_andThen env (cs_call env _) (fun _ => ?_)
          refine cs_andThen env
            (cs_uploadChunks env bulk_url object_name operation eid cs)
            (fun ids => ?_)
          exact cs_const env _ (by simp)
        · refine cs_andThen env (cs_pollLoopHttp env bulk_url fuel ids [])
            (fun results => ?_)
          exact cs_const env _ (by simp)
      · rw [_bulk_operation, bulkBody]
        simp only [json_list_to_file, split_csv, List.map_cons]
        rw [hchunks, uploadChunks, andThen_assoc]
        rfl

/-- C8: every remote call of the bulk operation goes through
`call_salesforce`; a response with status ≥ 300 raises the error mapped by
`exception_handler` (300 → more-than-one-record, 400 → malformed request,
401 → expired session, 403 → refused request, 404 → resource not found,
anything else ≥ 300 → general error), and the first bad response aborts
the whole run with exactly that error and no request after it; in
particular a 400 on the create-job call aborts with the malformed-request
error while the trace holds only the create-job POST — no batch upload was
attempted. -/
theorem bulk_operation_aborts_on_http_error (env : Nat → Response)
    (bulk_url object_name operation : String)
    (data : List (List (String × String))) (eid : Option String)
    (fuel : Nat) :
    (∀ k, (∀ j, j < k → (env j).status < 300) → 300 ≤ (env k).status →
      (_bulk_operation env bulk_url object_name operation data eid
          fuel).2.trace.length ≤ k ∨
        ((_bulk_operation env bulk_url object_name operation data eid
            fuel).1 = .error (.sf (excFor (env k).status)) ∧
          (_bulk_operation env bulk_url object_name operation data eid
            fuel).2.trace.length = k + 1)) ∧
    (excFor 300 = .moreThanOneRecord ∧ excFor 400 = .malformedRequest ∧
      excFor 401 = .expiredSession ∧ excFor 403 = .refusedRequest ∧
      excFor 404 = .resourceNotFound ∧
      (∀ st, 300 ≤ st → st ≠ 300 → st ≠ 400 → st ≠ 401 → st ≠ 403 →
        st ≠ 404 → excFor st = .generalError)) ∧
    (data ≠ [] → (env 0).status = 400 →
      (_bulk_operation env bulk_url object_name operation data eid
          fuel).1 = .error (.sf .malformedRequest) ∧
      (_bulk_operation env bulk_url object_name operation data eid
          fuel).2.trace =
        [⟨.post, bulk_url, .json ⟨operation, object_name, "CSV", "LF",
          if operation == "upsert" then some eid else none⟩⟩]) := by
  refine ⟨?_, ⟨rfl, rfl, rfl, rfl, rfl, ?_⟩, ?_⟩
  · intro k hgood hbad
    exact callStrict_firstBad env _
      (cs_bulkBody env bulk_url object_name operation data eid fuel)
      k hgood hbad
  · intro st h1 h2 h3 h4 h5 h6
    simp [excFor, h2, h3, h4, h5, h6]
  · intro hdata h400
    obtain ⟨G, hG, hEq⟩ := bulk_starts_with_create env bulk_url object_name
      operation data eid fuel hdata
    have hbad : 300 ≤ (env (0 : Nat)).status := by omega
    rw [hEq]
    simp only [andThen, call_salesforce]
    simp only [show (⟨0, []⟩ : RunState).k = 0 from rfl, if_pos hbad]
    rw [h400]
    exact ⟨rfl, rfl⟩

theorem bulk_operation_aborts_on_http_error_witness :
    (_bulk_operation (fun _ => ⟨400, "", "", []⟩) "B/" "Contact" "insert"
        [[("Name", "X")]] Option.none 2).2.trace.length ≤ 0 ∨
      ((_bulk_operation (fun _ => ⟨400, "", "", []⟩) "B/" "Contact" "insert"
          [[("Name", "X")]] Option.none 2).1 =
        .error (.sf (excFor
          ((fun _ : Nat => (⟨400, "", "", []⟩ : Response)) 0).status)) ∧
        (_bulk_operation (fun _ => ⟨400, "", "", []⟩) "B/" "Contact" "insert"
          [[("Name", "X")]] Option.none 2).2.trace.length = 0 + 1) :=
  (bulk_operation_aborts_on_http_error (fun _ => ⟨400, "", "", []⟩) "B/"
    "Contact" "insert" [[("Name", "X")]] Option.none 2).1 0
    (fun j hj => absurd hj (Nat.not_lt_zero j)) (by decide)

/-- C9 counterexample: calling upsert with `external_id_field = None` does
NOT fail fast before any HTTP call.  Against an all-good remote the run
succeeds after 7 requests, and the very first request is the create-job
POST whose payload carries `externalIdFieldName: null` — the null external
id is forwarded to the remote service, and no local error of any kind is
raised. -/
theorem upsert_none_no_local_failure :
    ((upsert okEnv "B/" "Contact" [[("Name", "X")]] Option.none 2).1).isOk =
      true ∧
    (upsert okEnv "B/" "Contact" [[("Name", "X")]] Option.none 2).2.trace.length = 7 ∧
    (upsert okEnv "B/" "Contact" [[("Name", "X")]] Option.none 2).2.trace.head? =
      some ⟨.post, "B/",
        .json ⟨"upsert", "Contact", "CSV", "LF", some Option.none⟩⟩ := by
  exact ⟨by rfl, by rfl, by rfl⟩

/-- C9 amended: upsert with a `None` external id field raises no local
error — no `ConfigurationError` exists in this code — and proceeds
straight to the remote: for any nonempty record list the first HTTP
request issued is the create-job POST with `externalIdFieldName: null` in
its payload.  (Omitting the argument entirely is a Python `TypeError`
from the function arity, also not a `ConfigurationError`.) -/
theorem upsert_none_external_id_forwards (env : Nat → Response)
    (bulk_url object_name : String) (data : List (List (String × String)))
    (fuel : Nat) (hdata : data ≠ []) :
    (upsert env bulk_url object_name data Option.none fuel).2.trace.head? =
      some ⟨.post, bulk_url,
        .json ⟨"upsert", object_name, "CSV", "LF", some Option.none⟩⟩ := by
  obtain ⟨G, hG, hEq⟩ := bulk_starts_with_create env bulk_url object_name
    "upsert" data Option.none fuel hdata
  rw [upsert, hEq]
  exact andThen_call_trace_head env _ G hG

theorem upsert_none_external_id_forwards_witness :
    (upsert okEnv "B/" "Contact" [[("Name", "X")]] Option.none 2).2.trace.head? =
      some ⟨.post, "B/",
        .json ⟨"upsert", "Contact", "CSV", "LF", some Option.none⟩⟩ :=
  upsert_none_external_id_forwards okEnv "B/" "Contact" [[("Name", "X")]] 2
    (by simp)

/-- C10: all four public operations on an empty record list raise before
any HTTP request: `json_list_to_file` writes nothing, so `split_csv`'s
`header = next(data)` raises `StopIteration` (a `RuntimeError` once the
generator is driven, PEP 479) on the first chunk request, with the
request trace still empty — no job-creation call is issued and no empty
or header-only result is returned. -/
theorem empty_records_error_before_any_request (env : Nat → Response)
    (bulk_url object_name : String) (eid : Option String) (fuel : Nat) :
    insert env bulk_url object_name [] fuel =
      (.error (.split .emptySource), ⟨0, []⟩) ∧
    update env bulk_url object_name [] fuel =
      (.error (.split .emptySource), ⟨0, []⟩) ∧
    delete env bulk_url object_name [] fuel =
      (.error (.split .emptySource), ⟨0, []⟩) ∧
    upsert env bulk_url object_name [] eid fuel =
      (.error (.split .emptySource), ⟨0, []⟩) := by
  exact ⟨rfl, rfl, rfl, rfl⟩

end SimpleSalesforce
